import Mathlib

/-
  Shallow embedding of src/tiling/main.cc (class Demo).

  Numeric values computed in C++ floating point are modelled over the exact
  reals (for the trigonometric height and layout formulas) and over the
  rationals (for the random phase initialization).  The OpenGL side effects
  of Demo::render and Demo::draw_grid are modelled as an explicit event
  trace: each gl / shader call becomes one trace event, in the order the
  source issues them.
-/

/-- static constexpr GridRows = 12 in Demo. -/
def GridRows : ℕ := 12

/-- static constexpr GridColumns = 12 in Demo. -/
def GridColumns : ℕ := 12

/-- RAND_MAX of the C library (glibc value); std::rand returns an int in
[0, RAND_MAX], modelled as Fin (RAND_MAX + 1). -/
def RAND_MAX : ℕ := 2147483647

/-- One result of std::rand. -/
abbrev RandVal : Type := Fin (RAND_MAX + 1)

/-- The expression 2.5 * static_cast<float>(std::rand()) / RAND_MAX from
Demo::initialize_heights, over exact rationals, applied to one rand result. -/
def phaseOfRand (r : RandVal) : ℚ := 2.5 * (r.val : ℚ) / (RAND_MAX : ℚ)

/-- One row of Demo::initialize_heights: the inner j loop, threading the
count of std::rand calls made so far (the stream index). -/
def fillRow (rand : ℕ → RandVal) (cols : ℕ) (acc : List ℚ × ℕ) : List ℚ × ℕ :=
  (List.range cols).foldl (fun p _ => (p.1 ++ [phaseOfRand (rand p.2)], p.2 + 1)) acc

/-- One grid of Demo::initialize_heights: the outer i loop over rows,
threading the rand call counter across rows. -/
def fillGrid (rand : ℕ → RandVal) (rows cols start : ℕ) : List (List ℚ) × ℕ :=
  (List.range rows).foldl
    (fun p _ =>
      let q := fillRow rand cols ([], p.2)
      (p.1 ++ [q.1], q.2))
    ([], start)

/-- The two per-slot phase arrays of Demo, plus the total number of
std::rand calls consumed. -/
structure HeightField where
  hexagon_heights : List (List ℚ)
  diamond_heights : List (List ℚ)
  randCalls : ℕ
  deriving DecidableEq

/-- Demo::initialize_heights: first the hexagon double loop
(GridRows x GridColumns), then the diamond double loop
((GridRows-1) x (GridColumns-1)), consuming one std::rand call per slot. -/
def init_heights (rand : ℕ → RandVal) : HeightField :=
  let hx := fillGrid rand GridRows GridColumns 0
  let dm := fillGrid rand (GridRows - 1) (GridColumns - 1) hx.2
  ⟨hx.1, dm.1, dm.2⟩

/-- Entry (i, j) of a grid, with out-of-range defaults. -/
def entry (g : List (List ℚ)) (i j : ℕ) : ℚ := (g.getD i []).getD j 0

/-- cos_30 = std::cos(M_PI / 6.0) from Demo::draw_grid. -/
noncomputable def cos_30 : ℝ := Real.cos (Real.pi / 6)

/-- The per-tile height 2.5f * (1.0f + std::sin(cur_time_ + phase)) from
Demo::draw_grid, over exact reals. -/
noncomputable def tileHeight (t p : ℝ) : ℝ := 2.5 * (1 + Real.sin (t + p))

/-- Hexagon slot translation from Demo::draw_grid:
x = 2.0 * cos_30 * (j - 0.5 * (GridColumns - 1)), y = 2.0 * (i - 0.5 * (GridRows - 1)). -/
noncomputable def hexOffset (i j : ℕ) : ℝ × ℝ :=
  (2 * cos_30 * ((j : ℝ) - 0.5 * ((GridColumns : ℝ) - 1)),
   2 * ((i : ℝ) - 0.5 * ((GridRows : ℝ) - 1)))

/-- Diamond slot translation from Demo::draw_grid:
x = 2.0 * cos_30 * (j - 0.5 * (GridColumns - 2)), y = 2.0 * (i - 0.5 * (GridRows - 2)). -/
noncomputable def diamondOffset (i j : ℕ) : ℝ × ℝ :=
  (2 * cos_30 * ((j : ℝ) - 0.5 * ((GridColumns : ℝ) - 2)),
   2 * ((i : ℝ) - 0.5 * ((GridRows : ℝ) - 2)))

/-- The two shader programs owned by Demo: program_ (the tile/color
program) and shadow_program_. -/
inductive Prog where
  | mainProgram
  | shadowProgram
  deriving DecidableEq

/-- The two tile shapes. -/
inductive Shape where
  | hexagon
  | diamond
  deriving DecidableEq

/-- One tile iteration of Demo::draw_grid: the program whose set_uniform
receives the modelMatrix and height for this tile (uniformReceiver), the
translation part of the per-tile model matrix (the full matrix is the
fixed 45 degree rotation composed with this translation), the height
value, and the glDrawArrays(GL_LINE_LOOP, 0, vertexCount) call. -/
structure TileDraw where
  shape : Shape
  row : ℕ
  col : ℕ
  modelTranslate : ℝ × ℝ
  height : ℝ
  vertexCount : ℕ
  uniformReceiver : Prog

/-- One observable step of Demo::render, in source order. -/
inductive Event where
  | bindShadowBuffer
  | clearDepth
  | bindProgram (p : Prog)
  | setViewProjection (p : Prog)
  | enablePolygonOffset
  | tileDraw (d : TileDraw)
  | disablePolygonOffset
  | unbindShadowBuffer
  | clearColorAndDepth
  | enableDepthTest
  | bindShadowTexture
  | setLightPosition (p : Prog)
  | setColor (p : Prog)
  | setLightViewProjection (p : Prog)
  | setShadowMapTexture (p : Prog)

/-- Demo::draw_grid(program, model): hexagons first (bind hexagon_, double
loop over GridRows x GridColumns, 6-vertex line loop), then diamonds
(bind diamond_, double loop over (GridRows-1) x (GridColumns-1), 4-vertex
line loop).  The body ignores the program parameter and calls set_uniform
on the member program_ (mainProgram), exactly as the source does. -/
noncomputable def draw_grid (program : Prog) (t : ℝ) (hexH diaH : ℕ → ℕ → ℝ) :
    List TileDraw :=
  ((List.range GridRows).flatMap fun i => (List.range GridColumns).map fun j =>
    { shape := Shape.hexagon, row := i, col := j, modelTranslate := hexOffset i j,
      height := tileHeight t (hexH i j), vertexCount := 6,
      uniformReceiver := Prog.mainProgram }) ++
  ((List.range (GridRows - 1)).flatMap fun i => (List.range (GridColumns - 1)).map fun j =>
    { shape := Shape.diamond, row := i, col := j, modelTranslate := diamondOffset i j,
      height := tileHeight t (diaH i j), vertexCount := 4,
      uniformReceiver := Prog.mainProgram })

/-- The shadow section of Demo::render: bind the shadow buffer, clear depth
only, bind shadow_program_ and set its viewProjectionMatrix, enable the
polygon offset, draw the grid (the call passes program_ as the argument),
disable the offset, unbind the shadow buffer. -/
noncomputable def shadowTrace (t : ℝ) (hexH diaH : ℕ → ℕ → ℝ) : List Event :=
  [Event.bindShadowBuffer, Event.clearDepth,
   Event.bindProgram Prog.shadowProgram,
   Event.setViewProjection Prog.shadowProgram,
   Event.enablePolygonOffset] ++
  (draw_grid Prog.mainProgram t hexH diaH).map Event.tileDraw ++
  [Event.disablePolygonOffset, Event.unbindShadowBuffer]

/-- The color section of Demo::render: clear color and depth, enable depth
test, bind the shadow texture, bind program_ and set its frame uniforms,
draw the grid again with the same arguments. -/
noncomputable def colorTrace (t : ℝ) (hexH diaH : ℕ → ℕ → ℝ) : List Event :=
  [Event.clearColorAndDepth, Event.enableDepthTest, Event.bindShadowTexture,
   Event.bindProgram Prog.mainProgram,
   Event.setViewProjection Prog.mainProgram,
   Event.setLightPosition Prog.mainProgram,
   Event.setColor Prog.mainProgram,
   Event.setLightViewProjection Prog.mainProgram,
   Event.setShadowMapTexture Prog.mainProgram] ++
  (draw_grid Prog.mainProgram t hexH diaH).map Event.tileDraw

/-- Demo::render at clock value t: the shadow section followed by the
color section, unconditionally. -/
noncomputable def render (t : ℝ) (hexH diaH : ℕ → ℕ → ℝ) : List Event :=
  shadowTrace t hexH diaH ++ colorTrace t hexH diaH

/-- float cur_time_ = 0 in Demo. -/
def initialClock : ℝ := 0

/-- Demo::render_and_step(dt): render() at the current clock, then
cur_time_ += dt.  Returns the trace of the frame and the new clock. -/
noncomputable def render_and_step (t dt : ℝ) (hexH diaH : ℕ → ℕ → ℝ) :
    List Event × ℝ :=
  (render t hexH diaH, t + dt)

/-- Extract the tile draw carried by an event, if any. -/
def eventDraw : Event → Option TileDraw
  | Event.tileDraw d => some d
  | _ => none

/-- The tile draws issued within a trace, in order. -/
def drawsOf (tr : List Event) : List TileDraw := tr.filterMap eventDraw

/-- The height arrays in which every phase is zero. -/
noncomputable def zeroHeights : ℕ → ℕ → ℝ := fun _ _ => 0

/-- The height reported for the first tile drawn in a trace. -/
noncomputable def firstDrawHeight (tr : List Event) : Option ℝ :=
  ((drawsOf tr).head?).map TileDraw.height

/-- A rand stream stuck at the maximal value RAND_MAX. -/
def maxRand : ℕ → RandVal := fun _ => ⟨RAND_MAX, Nat.lt_succ_self RAND_MAX⟩

section Helpers

lemma foldl_range_succ {α : Type} (f : α → ℕ → α) (a : α) (n : ℕ) :
    (List.range (n + 1)).foldl f a = f ((List.range n).foldl f a) n := by
  rw [List.range_succ, List.foldl_append]
  rfl

lemma fillRow_eq (rand : ℕ → RandVal) (cols : ℕ) (acc : List ℚ) (n : ℕ) :
    fillRow rand cols (acc, n)
      = (acc ++ (List.range cols).map (fun j => phaseOfRand (rand (n + j))), n + cols) := by
  induction cols with
  | zero => simp [fillRow]
  | succ c ih =>
      rw [fillRow, foldl_range_succ]
      rw [show (List.range c).foldl
            (fun p _ => (p.1 ++ [phaseOfRand (rand p.2)], p.2 + 1)) (acc, n)
          = fillRow rand c (acc, n) from rfl, ih]
      simp [List.range_succ]
      omega

lemma fillGrid_eq (rand : ℕ → RandVal) (rows cols start : ℕ) :
    fillGrid rand rows cols start
      = ((List.range rows).map
          (fun i => (List.range cols).map (fun j => phaseOfRand (rand (start + i * cols + j)))),
         start + rows * cols) := by
  induction rows with
  | zero => simp [fillGrid]
  | succ r ih =>
      rw [fillGrid, foldl_range_succ]
      rw [show (List.range r).foldl
            (fun p _ =>
              let q := fillRow rand cols ([], p.2)
              (p.1 ++ [q.1], q.2)) ([], start)
          = fillGrid rand r cols start from rfl, ih]
      simp only [fillRow_eq, List.range_succ, List.map_append, List.map_cons, List.map_nil,
        List.nil_append, Prod.mk.injEq]
      exact ⟨trivial, by ring⟩

end Helpers

lemma entry_fillGrid (rand : ℕ → RandVal) (rows cols start i j : ℕ)
    (hi : i < rows) (hj : j < cols) :
    entry (fillGrid rand rows cols start).1 i j = phaseOfRand (rand (start + i * cols + j)) := by
  rw [fillGrid_eq]
  simp [entry, List.getD_eq_getElem?_getD, List.getElem?_map, List.getElem?_range, hi, hj]

lemma phaseOfRand_nonneg (r : RandVal) : 0 ≤ phaseOfRand r := by
  unfold phaseOfRand
  positivity

lemma phaseOfRand_le (r : RandVal) : phaseOfRand r ≤ 2.5 := by
  have hr : (r.val : ℚ) ≤ (RAND_MAX : ℚ) := by
    exact_mod_cast Nat.lt_succ_iff.mp r.isLt
  unfold phaseOfRand
  rw [div_le_iff₀ (by norm_num [RAND_MAX])]
  nlinarith

lemma drawsOf_shadowTrace (t : ℝ) (hexH diaH : ℕ → ℕ → ℝ) :
    drawsOf (shadowTrace t hexH diaH) = draw_grid Prog.mainProgram t hexH diaH := by
  simp only [drawsOf, shadowTrace, List.filterMap_append, List.filterMap_map,
    List.filterMap_cons, List.filterMap_nil, eventDraw]
  rw [show eventDraw ∘ Event.tileDraw = some from rfl, List.filterMap_some]
  simp

lemma drawsOf_colorTrace (t : ℝ) (hexH diaH : ℕ → ℕ → ℝ) :
    drawsOf (colorTrace t hexH diaH) = draw_grid Prog.mainProgram t hexH diaH := by
  simp only [drawsOf, colorTrace, List.filterMap_append, List.filterMap_map,
    List.filterMap_cons, List.filterMap_nil, eventDraw]
  rw [show eventDraw ∘ Event.tileDraw = some from rfl, List.filterMap_some]
  simp

lemma draw_grid_receiver (p : Prog) (t : ℝ) (hexH diaH : ℕ → ℕ → ℝ) :
    ∀ d ∈ draw_grid p t hexH diaH, d.uniformReceiver = Prog.mainProgram := by
  intro d hd
  simp only [draw_grid, List.mem_append, List.mem_flatMap, List.mem_map] at hd
  rcases hd with ⟨i, _, j, _, rfl⟩ | ⟨i, _, j, _, rfl⟩ <;> rfl

lemma sin_one_pos : 0 < Real.sin 1 :=
  Real.sin_pos_of_pos_of_lt_pi (by norm_num) (by linarith [Real.pi_gt_three])

/-- C1: for every hexagon slot (i, j) with i < GridRows and j < GridColumns the
translation is (2 cos 30 (j - (Columns-1)/2), 2 (i - (Rows-1)/2)); for every
diamond slot (i, j) with i < GridRows - 1 and j < GridColumns - 1 it is
(2 cos 30 (j - (Columns-2)/2), 2 (i - (Rows-2)/2)); and the offsets are pure
deterministic functions of the indices, so recomputing them yields the same
values. -/
theorem grid_layout_offsets :
    (∀ (i : Fin GridRows) (j : Fin GridColumns),
      hexOffset i j
        = (2 * Real.cos (Real.pi / 6) * (((j : ℕ) : ℝ) - (((GridColumns : ℕ) : ℝ) - 1) / 2),
           2 * (((i : ℕ) : ℝ) - (((GridRows : ℕ) : ℝ) - 1) / 2))) ∧
    (∀ (i : Fin (GridRows - 1)) (j : Fin (GridColumns - 1)),
      diamondOffset i j
        = (2 * Real.cos (Real.pi / 6) * (((j : ℕ) : ℝ) - (((GridColumns : ℕ) : ℝ) - 2) / 2),
           2 * (((i : ℕ) : ℝ) - (((GridRows : ℕ) : ℝ) - 2) / 2))) ∧
    (∀ i j : ℕ, hexOffset i j = hexOffset i j ∧ diamondOffset i j = diamondOffset i j) := by
  refine ⟨fun i j => ?_, fun i j => ?_, fun i j => ⟨rfl, rfl⟩⟩ <;>
    · simp only [hexOffset, diamondOffset, cos_30, Prod.mk.injEq]
      constructor <;> ring

/-- C2: for every clock value t and phase p, the instantaneous height equals
2.5 * (1 + sin (t + p)) and lies in the interval [0, 5]. -/
theorem height_formula_and_bounds :
    ∀ t p : ℝ, tileHeight t p = 2.5 * (1 + Real.sin (t + p)) ∧
      0 ≤ tileHeight t p ∧ tileHeight t p ≤ 5 := by
  intro t p
  have h1 := Real.neg_one_le_sin (t + p)
  have h2 := Real.sin_le_one (t + p)
  unfold tileHeight
  refine ⟨rfl, by nlinarith, by nlinarith⟩

/-- C9: the per-tile height is periodic in the clock with period 2 pi:
tileHeight (t + 2 pi) p = tileHeight t p for all real t and p. -/
theorem height_periodic :
    ∀ t p : ℝ, tileHeight (t + 2 * Real.pi) p = tileHeight t p := by
  intro t p
  unfold tileHeight
  rw [show t + 2 * Real.pi + p = t + p + 2 * Real.pi by ring, Real.sin_add_two_pi]

/-- C10: init_heights consumes the shared rand stream hexagons first, in
row-major order (row outer, column inner), then diamonds, also row-major:
hexagon slot (i, j) receives the result of rand call number
i * GridColumns + j, diamond slot (i, j) the result of call number
GridRows * GridColumns + i * (GridColumns - 1) + j, and the total number of
calls consumed is fixed, so the mapping of successive random values to grid
slots is fully determined. -/
theorem rand_consumption_order :
    ∀ (rand : ℕ → RandVal) (i : Fin GridRows) (j : Fin GridColumns)
      (k : Fin (GridRows - 1)) (l : Fin (GridColumns - 1)),
      entry (init_heights rand).hexagon_heights i j
        = phaseOfRand (rand (i * GridColumns + j)) ∧
      entry (init_heights rand).diamond_heights k l
        = phaseOfRand (rand (GridRows * GridColumns + k * (GridColumns - 1) + l)) ∧
      (init_heights rand).randCalls
        = GridRows * GridColumns + (GridRows - 1) * (GridColumns - 1) := by
  intro rand i j k l
  have hsnd : (fillGrid rand GridRows GridColumns 0).2 = GridRows * GridColumns := by
    simp [fillGrid_eq]
  refine ⟨?_, ?_, ?_⟩
  · have h := entry_fillGrid rand GridRows GridColumns 0 i j i.isLt j.isLt
    simpa using h
  · show entry (fillGrid rand (GridRows - 1) (GridColumns - 1)
        (fillGrid rand GridRows GridColumns 0).2).1 k l = _
    rw [hsnd]
    exact entry_fillGrid rand _ _ _ k l k.isLt l.isLt
  · show (fillGrid rand (GridRows - 1) (GridColumns - 1)
        (fillGrid rand GridRows GridColumns 0).2).2 = _
    rw [hsnd, fillGrid_eq]

/-- C4 (amended): init_heights draws exactly GridRows * GridColumns hexagon
phases and (GridRows - 1) * (GridColumns - 1) diamond phases, and every
drawn phase lies in the closed interval [0, 2.5]; the upper endpoint is
attainable (when std::rand returns RAND_MAX), so [0, 2.5] and not the
half-open [0, 2.5) of the original claim. -/
theorem height_init_counts_and_range :
    ∀ rand : ℕ → RandVal,
      (init_heights rand).hexagon_heights.length = GridRows ∧
      ((init_heights rand).hexagon_heights.all fun row =>
        decide (row.length = GridColumns)) = true ∧
      (init_heights rand).diamond_heights.length = GridRows - 1 ∧
      ((init_heights rand).diamond_heights.all fun row =>
        decide (row.length = GridColumns - 1)) = true ∧
      (init_heights rand).randCalls
        = GridRows * GridColumns + (GridRows - 1) * (GridColumns - 1) ∧
      ((init_heights rand).hexagon_heights.all fun row =>
        row.all fun q => decide (0 ≤ q) && decide (q ≤ 2.5)) = true ∧
      ((init_heights rand).diamond_heights.all fun row =>
        row.all fun q => decide (0 ≤ q) && decide (q ≤ 2.5)) = true := by
  intro rand
  refine ⟨?_, ?_, ?_, ?_, ?_, ?_, ?_⟩ <;>
    simp [init_heights, fillGrid_eq, List.all_eq_true, List.mem_map, List.mem_range,
      phaseOfRand_nonneg, phaseOfRand_le]

/-- C4 counterexample: under the admissible rand stream constantly equal to
RAND_MAX, the hexagon phase drawn for slot (0, 0) equals exactly 2.5, so a
drawn phase need not be strictly less than 2.5 as the original claim
states. -/
theorem height_phase_attains_upper_bound :
    entry (init_heights maxRand).hexagon_heights 0 0 = 2.5 ∧
    ¬ (entry (init_heights maxRand).hexagon_heights 0 0 < 2.5) := by
  have h : entry (init_heights maxRand).hexagon_heights 0 0 = phaseOfRand (maxRand 0) := by
    have h0 := entry_fillGrid maxRand GridRows GridColumns 0 0 0
      (by norm_num [GridRows]) (by norm_num [GridColumns])
    simpa using h0
  have h2 : phaseOfRand (maxRand 0) = 2.5 := by
    unfold phaseOfRand maxRand RAND_MAX
    norm_num
  rw [h, h2]
  exact ⟨rfl, lt_irrefl _⟩

/-- C3: in the shadow pass the shadow program is bound, but the per-tile
modelMatrix and height uniforms of every tile draw are received by the main
color program (draw_grid calls set_uniform on the member program_ and the
render call passes program_ as well), which is not the bound shadow
program — the claim that they are set on the activated shadow shader fails
on the code. -/
theorem shadow_pass_uniforms_wrong_program :
    ∀ (t : ℝ) (hexH diaH : ℕ → ℕ → ℝ),
      Event.bindProgram Prog.shadowProgram ∈ shadowTrace t hexH diaH ∧
      ((drawsOf (shadowTrace t hexH diaH)).all fun d =>
        decide (d.uniformReceiver = Prog.mainProgram)) = true ∧
      Prog.mainProgram ≠ Prog.shadowProgram := by
  intro t hexH diaH
  refine ⟨by simp [shadowTrace], ?_, by simp⟩
  rw [drawsOf_shadowTrace, List.all_eq_true]
  intro d hd
  simp [draw_grid_receiver _ _ _ _ d hd]

/-- C6: every frame renders the shadow section strictly before the color
section: the render trace is the shadow trace followed by the color trace,
the shadow trace begins by binding the shadow buffer and ends by unbinding
it, it contains every tile draw, and neither section is empty or
conditional. -/
theorem shadow_pass_precedes_color_pass :
    ∀ (t : ℝ) (hexH diaH : ℕ → ℕ → ℝ),
      render t hexH diaH = shadowTrace t hexH diaH ++ colorTrace t hexH diaH ∧
      (shadowTrace t hexH diaH).head? = some Event.bindShadowBuffer ∧
      (shadowTrace t hexH diaH).getLast? = some Event.unbindShadowBuffer ∧
      drawsOf (shadowTrace t hexH diaH) = draw_grid Prog.mainProgram t hexH diaH ∧
      shadowTrace t hexH diaH ≠ [] ∧ colorTrace t hexH diaH ≠ [] := by
  intro t hexH diaH
  refine ⟨rfl, rfl, ?_, drawsOf_shadowTrace t hexH diaH,
    by simp [shadowTrace], by simp [colorTrace]⟩
  rw [shadowTrace]
  rw [show ([Event.disablePolygonOffset, Event.unbindShadowBuffer] : List Event)
      = [Event.disablePolygonOffset] ++ [Event.unbindShadowBuffer] from rfl]
  rw [← List.append_assoc, List.getLast?_concat]

/-- C7: the shadow and color passes issue exactly the same per-tile draws in
the same order — all hexagons in row-major order then all diamonds in
row-major order — with identical model translation and height for every
tile, and vertex count 6 for every hexagon and 4 for every diamond. -/
theorem passes_issue_identical_draws :
    ∀ (t : ℝ) (hexH diaH : ℕ → ℕ → ℝ),
      drawsOf (shadowTrace t hexH diaH) = drawsOf (colorTrace t hexH diaH) ∧
      drawsOf (shadowTrace t hexH diaH) = draw_grid Prog.mainProgram t hexH diaH ∧
      ((draw_grid Prog.mainProgram t hexH diaH).all fun d =>
        decide ((d.shape = Shape.hexagon → d.vertexCount = 6) ∧
                (d.shape = Shape.diamond → d.vertexCount = 4))) = true := by
  intro t hexH diaH
  refine ⟨by rw [drawsOf_shadowTrace, drawsOf_colorTrace],
    drawsOf_shadowTrace t hexH diaH, ?_⟩
  rw [List.all_eq_true]
  intro d hd
  simp only [draw_grid, List.mem_append, List.mem_flatMap, List.mem_map] at hd
  rcases hd with ⟨i, _, j, _, rfl⟩ | ⟨i, _, j, _, rfl⟩ <;> simp

lemma firstDrawHeight_render (t : ℝ) (hexH diaH : ℕ → ℕ → ℝ) :
    firstDrawHeight (render t hexH diaH) = some (tileHeight t (hexH 0 0)) := rfl

/-- C5 (amended): render_and_step(dt) first emits the frame trace from the
current (pre-advance) clock value and only then advances the clock by dt:
render_and_step t dt = (render t, t + dt), so the heights rendered in a
frame are derived from the clock value before the advance. -/
theorem clock_advances_after_render :
    ∀ (t dt : ℝ) (hexH diaH : ℕ → ℕ → ℝ),
      render_and_step t dt hexH diaH = (render t hexH diaH, t + dt) := by
  intro t dt hexH diaH
  rfl

/-- C5 counterexample: on the first frame with dt = 1 and all phases zero,
the emitted trace is not the trace of the advanced clock initialClock + 1:
the renderer reads the clock before it is advanced, refuting the claim that
the clock is advanced before the draw calls are emitted. -/
theorem render_not_from_advanced_clock :
    (render_and_step initialClock 1 zeroHeights zeroHeights).1
      ≠ render (initialClock + 1) zeroHeights zeroHeights := by
  intro h
  have h2 := congrArg firstDrawHeight h
  rw [show (render_and_step initialClock 1 zeroHeights zeroHeights).1
      = render initialClock zeroHeights zeroHeights from rfl] at h2
  rw [firstDrawHeight_render, firstDrawHeight_render] at h2
  simp only [Option.some.injEq, tileHeight, zeroHeights, initialClock, add_zero, zero_add,
    Real.sin_zero] at h2
  nlinarith [sin_one_pos]

/-- C8 (amended): the scene clock starts at 0, each render_and_step(dt) call
advances it by exactly dt (never resetting), the clock is non-decreasing
when dt is non-negative, and a call with dt = 0 leaves the clock unchanged,
so the call after a dt = 0 call renders exactly the heights the dt = 0 call
rendered; because heights are sampled before the clock advances, the dt = 0
frame itself matches the prior frame only when the prior dt was 0. -/
theorem clock_invariants :
    ∀ (t dt dt2 : ℝ) (hexH diaH : ℕ → ℕ → ℝ), 0 ≤ dt →
      initialClock = 0 ∧
      (render_and_step t dt hexH diaH).2 = t + dt ∧
      t ≤ (render_and_step t dt hexH diaH).2 ∧
      (render_and_step t 0 hexH diaH).2 = t ∧
      (render_and_step ((render_and_step t 0 hexH diaH).2) dt2 hexH diaH).1
        = (render_and_step t 0 hexH diaH).1 := by
  intro t dt dt2 hexH diaH hdt
  refine ⟨rfl, rfl, ?_, by simp [render_and_step], by simp [render_and_step]⟩
  show t ≤ t + dt
  linarith

/-- Witness for clock_invariants at t = 0, dt = 1, dt2 = 1 with all-zero
phase arrays. -/
theorem clock_invariants_witness :
    (0 : ℝ) ≤ 1 ∧
    (initialClock = 0 ∧
      (render_and_step 0 1 zeroHeights zeroHeights).2 = 0 + 1 ∧
      (0 : ℝ) ≤ (render_and_step 0 1 zeroHeights zeroHeights).2 ∧
      (render_and_step 0 0 zeroHeights zeroHeights).2 = 0 ∧
      (render_and_step ((render_and_step 0 0 zeroHeights zeroHeights).2) 1 zeroHeights
          zeroHeights).1
        = (render_and_step 0 0 zeroHeights zeroHeights).1) :=
  ⟨zero_le_one, clock_invariants 0 1 1 zeroHeights zeroHeights zero_le_one⟩

/-- C8 counterexample: call render_and_step with dt = 1 from the initial
clock, then with dt = 0: the dt = 0 call renders different heights than the
prior frame (the prior frame sampled the clock at 0, the dt = 0 frame at 1),
refuting the claim that a dt = 0 call leaves every rendered height unchanged
from the prior frame. -/
theorem dt_zero_frame_differs_from_prior :
    (render_and_step ((render_and_step initialClock 1 zeroHeights zeroHeights).2) 0
        zeroHeights zeroHeights).1
      ≠ (render_and_step initialClock 1 zeroHeights zeroHeights).1 := by
  intro h
  have h2 := congrArg firstDrawHeight h
  rw [show (render_and_step ((render_and_step initialClock 1 zeroHeights zeroHeights).2) 0
        zeroHeights zeroHeights).1
      = render (initialClock + 1) zeroHeights zeroHeights from rfl] at h2
  rw [show (render_and_step initialClock 1 zeroHeights zeroHeights).1
      = render initialClock zeroHeights zeroHeights from rfl] at h2
  rw [firstDrawHeight_render, firstDrawHeight_render] at h2
  simp only [Option.some.injEq, tileHeight, zeroHeights, initialClock, add_zero, zero_add,
    Real.sin_zero] at h2
  nlinarith [sin_one_pos]
